import Mathlib

/-!
Verification of the document retrieval and report synthesis engine of the
UNHCR Rights-Mapper repository.

The TypeScript sources are shallowly embedded:

* text is modelled as `List Char`; JavaScript string indices as `Int`
  (JavaScript `slice` accepts and clamps negative indices);
* floating point arithmetic that none of the verified properties depend on
  (cosine similarity scores, page estimation) is modelled over `ℚ`, or
  abstracted into an explicit capability parameter where the source calls
  out to an external collaborator;
* fallible operations return `Option` or `Except`; a JavaScript `throw`
  crossing a `Promise.all` is an `Except.error` propagating through `mapM`;
* the `while` loop of `chunkText` has no variant when `overlap >= size`
  (the step `size - overlap` is then nonpositive), so it is embedded with
  explicit fuel: `none` means the loop has not finished within the given
  fuel, and a `none` for every fuel is non-termination of the source loop.
-/

open scoped List

/-- ECMAScript `String.prototype.slice` on a list of characters: negative
indices count from the end, all indices are clamped into `[0, length]`. -/
def jsSlice (l : List Char) (s e : Int) : List Char :=
  let len : Int := l.length
  let s' : Int := if s < 0 then max (len + s) 0 else min s len
  let e' : Int := if e < 0 then max (len + e) 0 else min e len
  (l.drop s'.toNat).take (e'.toNat - s'.toNat)

/-- `chunkText` loop body from `server/services/pdfProcessor.ts`
(`while (start < text.length) { push(text.slice(start, end)); start += chunkSize - overlap }`)
with explicit fuel.  `none` means the fuel ran out before the loop finished. -/
def chunkTextFuel (text : List Char) (chunkSize overlap : Nat) :
    Nat → Int → Option (List (List Char))
  | 0, _ => none
  | fuel + 1, start =>
    if start < (text.length : Int) then
      (chunkTextFuel text chunkSize overlap fuel
          (start + ((chunkSize : Int) - (overlap : Int)))).map
        (fun rest => jsSlice text start (min (start + chunkSize) (text.length : Int)) :: rest)
    else
      some []

/-- `chunkText(text, chunkSize, overlap)` from `server/services/pdfProcessor.ts`.
When `overlap < chunkSize` the loop advances by at least one character per
iteration, so `text.length + 1` units of fuel always suffice; `none` therefore
occurs exactly when the source loop does not terminate. -/
def chunkText (text : List Char) (chunkSize overlap : Nat) : Option (List (List Char)) :=
  chunkTextFuel text chunkSize overlap (text.length + 1) 0

theorem chunkTextFuel_zero (text : List Char) (chunkSize overlap : Nat) (start : Int) :
    chunkTextFuel text chunkSize overlap 0 start = none := rfl

theorem chunkTextFuel_pos (text : List Char) (chunkSize overlap : Nat) (fuel : Nat)
    (start : Int) (h : start < (text.length : Int)) :
    chunkTextFuel text chunkSize overlap (fuel + 1) start =
      (chunkTextFuel text chunkSize overlap fuel
          (start + ((chunkSize : Int) - (overlap : Int)))).map
        (fun rest => jsSlice text start (min (start + chunkSize) (text.length : Int)) :: rest) := by
  simp [chunkTextFuel, h]

theorem chunkTextFuel_neg (text : List Char) (chunkSize overlap : Nat) (fuel : Nat)
    (start : Int) (h : ¬ start < (text.length : Int)) :
    chunkTextFuel text chunkSize overlap (fuel + 1) start = some [] := by
  simp [chunkTextFuel, h]

/-- With `overlap < chunkSize` the loop terminates: fuel exceeding the number
of characters left to cover is enough. -/
theorem chunkTextFuel_isSome (text : List Char) (chunkSize overlap : Nat)
    (hlt : overlap < chunkSize) :
    ∀ fuel : Nat, ∀ start : Int, (text.length : Int) ≤ start + fuel →
      (chunkTextFuel text chunkSize overlap (fuel + 1) start).isSome := by
  intro fuel
  induction fuel with
  | zero =>
    intro start hle
    rw [chunkTextFuel_neg]
    · rfl
    · omega
  | succ n ih =>
    intro start hle
    by_cases h : start < (text.length : Int)
    · rw [chunkTextFuel_pos text chunkSize overlap (n + 1) start h]
      have : (chunkTextFuel text chunkSize overlap (n + 1)
          (start + ((chunkSize : Int) - (overlap : Int)))).isSome := by
        apply ih
        omega
      rcases Option.isSome_iff_exists.mp this with ⟨v, hv⟩
      rw [hv]
      rfl
    · rw [chunkTextFuel_neg text chunkSize overlap (n + 1) start h]
      rfl

theorem chunkText_isSome (text : List Char) (chunkSize overlap : Nat)
    (hlt : overlap < chunkSize) : (chunkText text chunkSize overlap).isSome := by
  unfold chunkText
  apply chunkTextFuel_isSome text chunkSize overlap hlt
  omega

/-- With `overlap ≥ chunkSize` and nonempty text the loop never terminates:
the start index never moves right, so the guard `start < text.length` stays
true and every amount of fuel is exhausted. -/
theorem chunkTextFuel_none_of_overlap_ge (text : List Char) (chunkSize overlap : Nat)
    (hge : chunkSize ≤ overlap) (hne : text ≠ []) :
    ∀ fuel : Nat, ∀ start : Int, start ≤ 0 →
      chunkTextFuel text chunkSize overlap fuel start = none := by
  intro fuel
  induction fuel with
  | zero => intro start _; rfl
  | succ n ih =>
    intro start hstart
    have hlen : 0 < (text.length : Int) := by
      have := List.length_pos.mpr hne
      omega
    rw [chunkTextFuel_pos text chunkSize overlap n start (by omega)]
    rw [ih (start + ((chunkSize : Int) - (overlap : Int))) (by omega)]
    rfl

/-! Decimal rendering of a natural number, as performed by the JavaScript
template literal `` `chunk_${chunkIdCounter++}` `` in `processPDFs`. -/

/-- Little-endian decimal digits of a natural number, with structural fuel
(the value itself bounds the number of digits, so `decimalDigitsRev` below
always supplies enough). -/
def decimalDigitsRevGo : Nat → Nat → List Nat
  | 0, n => [n]
  | fuel + 1, n => if n < 10 then [n] else (n % 10) :: decimalDigitsRevGo fuel (n / 10)

/-- Little-endian decimal digits of a natural number. -/
def decimalDigitsRev (n : Nat) : List Nat :=
  decimalDigitsRevGo n n

/-- Decimal rendering of a natural number (most significant digit first),
matching the JavaScript default number-to-string conversion. -/
def decimalRepr (n : Nat) : String :=
  ((decimalDigitsRev n).reverse.map Nat.digitChar).asString

theorem decimalDigitsRevGo_val (n : Nat) :
    ∀ fuel : Nat, n ≤ fuel →
      (decimalDigitsRevGo fuel n).foldr (fun d acc => acc * 10 + d) 0 = n := by
  induction n using Nat.strong_induction_on with
  | _ n ih =>
    intro fuel hle
    match fuel with
    | 0 =>
      have : n = 0 := by omega
      subst this
      simp [decimalDigitsRevGo]
    | f + 1 =>
      by_cases h : n < 10
      · simp [decimalDigitsRevGo, h]
      · have hdiv : n / 10 < n := Nat.div_lt_self (by omega) (by norm_num)
        rw [decimalDigitsRevGo, if_neg h]
        simp only [List.foldr_cons, ih (n / 10) hdiv f (by omega)]
        omega

theorem decimalDigitsRev_val (n : Nat) :
    (decimalDigitsRev n).foldr (fun d acc => acc * 10 + d) 0 = n :=
  decimalDigitsRevGo_val n n (le_refl n)

theorem decimalDigitsRevGo_lt (n : Nat) :
    ∀ fuel : Nat, n ≤ fuel → ∀ d ∈ decimalDigitsRevGo fuel n, d < 10 := by
  induction n using Nat.strong_induction_on with
  | _ n ih =>
    intro fuel hle
    match fuel with
    | 0 =>
      have : n = 0 := by omega
      subst this
      simp [decimalDigitsRevGo]
    | f + 1 =>
      by_cases h : n < 10
      · simp [decimalDigitsRevGo, h]
      · have hdiv : n / 10 < n := Nat.div_lt_self (by omega) (by norm_num)
        rw [decimalDigitsRevGo, if_neg h]
        intro d hd
        rcases List.mem_cons.mp hd with h1 | h2
        · subst h1; exact Nat.mod_lt _ (by norm_num)
        · exact ih (n / 10) hdiv f (by omega) d h2

theorem decimalDigitsRev_lt (n : Nat) : ∀ d ∈ decimalDigitsRev n, d < 10 :=
  decimalDigitsRevGo_lt n n (le_refl n)

theorem digitChar_inj_lt : ∀ d < 10, ∀ e < 10, Nat.digitChar d = Nat.digitChar e → d = e := by
  decide

theorem map_digitChar_inj : ∀ l1 l2 : List Nat, (∀ d ∈ l1, d < 10) → (∀ d ∈ l2, d < 10) →
    l1.map Nat.digitChar = l2.map Nat.digitChar → l1 = l2 := by
  intro l1
  induction l1 with
  | nil =>
    intro l2 _ _ h
    cases l2 with
    | nil => rfl
    | cons b bs => simp at h
  | cons a as ih =>
    intro l2 h1 h2 h
    cases l2 with
    | nil => simp at h
    | cons b bs =>
      simp only [List.map_cons, List.cons.injEq] at h
      have ha : a < 10 := h1 a (by simp)
      have hb : b < 10 := h2 b (by simp)
      have : a = b := digitChar_inj_lt a ha b hb h.1
      rw [this, ih bs (fun d hd => h1 d (by simp [hd])) (fun d hd => h2 d (by simp [hd])) h.2]

theorem decimalRepr_inj : Function.Injective decimalRepr := by
  intro a b h
  unfold decimalRepr at h
  have hdata : ((decimalDigitsRev a).reverse.map Nat.digitChar) =
      ((decimalDigitsRev b).reverse.map Nat.digitChar) := by
    have := congrArg String.data h
    simpa [List.asString] using this
  have hrev : (decimalDigitsRev a).reverse = (decimalDigitsRev b).reverse :=
    map_digitChar_inj _ _ (fun d hd => decimalDigitsRev_lt a d (List.mem_reverse.mp hd))
      (fun d hd => decimalDigitsRev_lt b d (List.mem_reverse.mp hd)) hdata
  have hdig : decimalDigitsRev a = decimalDigitsRev b := List.reverse_injective hrev
  calc a = (decimalDigitsRev a).foldr (fun d acc => acc * 10 + d) 0 :=
        (decimalDigitsRev_val a).symm
    _ = (decimalDigitsRev b).foldr (fun d acc => acc * 10 + d) 0 := by rw [hdig]
    _ = b := decimalDigitsRev_val b

/-- The chunk identifiers produced by `processPDFs` are injective in the
counter value. -/
theorem chunkId_inj : Function.Injective (fun n => "chunk_" ++ decimalRepr n) := by
  intro a b h
  apply decimalRepr_inj
  have hdata := congrArg String.data h
  simp only [String.data_append] at hdata
  have := List.append_cancel_left hdata
  cases ha : decimalRepr a with
  | mk da =>
    cases hb : decimalRepr b with
    | mk db =>
      rw [ha, hb] at this
      simp only at this
      rw [this]

/-! Embedding of `processPDFs` from `server/services/pdfProcessor.ts`. -/

/-- `PDFChunk` from `server/services/pdfProcessor.ts`. -/
structure PDFChunk where
  id : String
  filename : String
  filepath : String
  country : String
  pageNumber : Nat
  text : List Char
  chunkIndex : Nat
  deriving Repr, DecidableEq

/-- `CHUNK_SIZE` constant of `pdfProcessor.ts`. -/
def CHUNK_SIZE : Nat := 1000

/-- `CHUNK_OVERLAP` constant of `pdfProcessor.ts`. -/
def CHUNK_OVERLAP : Nat := 200

/-- One source file as seen by `processPDFs`: its full path, the segments of
its path relative to the corpus root (`path.relative(dataDir, filepath)`
split on the separator, so the basename is the last segment), and the result
of `extractTextFromPDF` (which catches extraction errors and yields empty
text with zero pages). -/
structure SourceFile where
  filepath : String
  relParts : List String
  text : List Char
  numPages : Nat
  deriving Repr, DecidableEq

/-- Page estimation of `processPDFs`:
`Math.max(1, Math.ceil(charPosition / (text.length / numPages)))` with
`charPosition = i * (CHUNK_SIZE - CHUNK_OVERLAP)`.  The floating point
quotient `charPosition / (textLen / numPages)` equals the exact rational
`charPosition * numPages / textLen`, whose ceiling is computed here by
integer arithmetic (`(a + b - 1) / b` is the ceiling of `a / b` for
`b > 0`).  A zero page count gives an infinite `charsPerPage` in JavaScript
and hence page 1, matched by the guard. -/
def estimatedPage (textLen numPages i : Nat) : Nat :=
  if numPages = 0 then 1
  else max 1 ((i * (CHUNK_SIZE - CHUNK_OVERLAP) * numPages + textLen - 1) / textLen)

/-- `country` derivation of `processPDFs`: first segment of the path relative
to the corpus root when the file sits in a subdirectory, `"unknown"` for a
file directly at the root. -/
def countryOf (relParts : List String) : String :=
  if relParts.length > 1 then relParts.headD "unknown" else "unknown"

/-- The inner loop of `processPDFs`
(`for (let i = 0; i < textChunks.length; i++) { allChunks.push({...}) }`):
`counter` is the value of the global `chunkIdCounter` when the file is
reached, `i` the per-file chunk index. -/
def fileChunksGo (f : SourceFile) (counter : Nat) : Nat → List (List Char) → List PDFChunk
  | _, [] => []
  | i, seg :: rest =>
    { id := "chunk_" ++ decimalRepr (counter + i)
      filename := f.relParts.getLastD ""
      filepath := f.filepath
      country := countryOf f.relParts
      pageNumber := estimatedPage f.text.length f.numPages i
      text := seg
      chunkIndex := i } :: fileChunksGo f counter (i + 1) rest

/-- The chunk records `processPDFs` pushes for one file, given the value of
the global chunk id counter when the file is reached. -/
def fileChunks (f : SourceFile) (counter : Nat) (segs : List (List Char)) : List PDFChunk :=
  fileChunksGo f counter 0 segs

theorem fileChunksGo_length (f : SourceFile) (counter : Nat) :
    ∀ (segs : List (List Char)) (i : Nat), (fileChunksGo f counter i segs).length = segs.length := by
  intro segs
  induction segs with
  | nil => intro i; rfl
  | cons seg rest ih => intro i; simp [fileChunksGo, ih (i + 1)]

theorem fileChunksGo_country (f : SourceFile) (counter : Nat) :
    ∀ (segs : List (List Char)) (i : Nat), ∀ c ∈ fileChunksGo f counter i segs,
      c.country = countryOf f.relParts := by
  intro segs
  induction segs with
  | nil => intro i c hc; simp [fileChunksGo] at hc
  | cons seg rest ih =>
    intro i c hc
    rcases List.mem_cons.mp hc with h1 | h2
    · subst h1; rfl
    · exact ih (i + 1) c h2

theorem fileChunksGo_map_id (f : SourceFile) (counter : Nat) :
    ∀ (segs : List (List Char)) (i : Nat),
      (fileChunksGo f counter i segs).map (fun c => c.id) =
        (List.range' (counter + i) segs.length).map
          (fun k => "chunk_" ++ decimalRepr k) := by
  intro segs
  induction segs with
  | nil => intro i; rfl
  | cons seg rest ih =>
    intro i
    have hr : List.range' (counter + i) (rest.length + 1) =
        (counter + i) :: List.range' (counter + i + 1) rest.length := rfl
    simp only [fileChunksGo, List.map_cons, List.length_cons, hr]
    rw [ih (i + 1), show counter + (i + 1) = counter + i + 1 from rfl]

theorem fileChunksGo_map_chunkIndex (f : SourceFile) (counter : Nat) :
    ∀ (segs : List (List Char)) (i : Nat),
      (fileChunksGo f counter i segs).map (fun c => c.chunkIndex) =
        List.range' i segs.length := by
  intro segs
  induction segs with
  | nil => intro i; rfl
  | cons seg rest ih =>
    intro i
    have hr : List.range' i (rest.length + 1) = i :: List.range' (i + 1) rest.length := rfl
    simp only [fileChunksGo, List.map_cons, List.length_cons, hr]
    rw [ih (i + 1)]

/-- The file loop of `processPDFs`: files whose extracted text is empty or
whitespace-only are skipped (contributing no chunks and not advancing the id
counter); for the rest the text is chunked with the default size and overlap
and one record per segment is appended.  `none` would propagate a
non-terminating `chunkText` call, which cannot happen at the default
constants. -/
def processPDFsGo : List SourceFile → Nat → Option (List PDFChunk)
  | [], _ => some []
  | f :: fs, counter =>
    if f.text.all Char.isWhitespace then processPDFsGo fs counter
    else
      match chunkText f.text CHUNK_SIZE CHUNK_OVERLAP with
      | none => none
      | some segs =>
        match processPDFsGo fs (counter + segs.length) with
        | none => none
        | some rest => some (fileChunks f counter segs ++ rest)

/-- `processPDFs` from `server/services/pdfProcessor.ts`, over the list of
discovered PDF files with their extraction results. -/
def processPDFs (files : List SourceFile) : Option (List PDFChunk) :=
  processPDFsGo files 0

/-! Embedding of `searchSimilarDocuments` from `server/services/vectorSearch.ts`.
The cosine similarity kernel is floating point arithmetic over the query and
record vectors; it is abstracted as an explicit function parameter `sim`
(the ranking contract of the retriever holds for every similarity function).
ECMAScript `Array.prototype.sort` is stable and is modelled as a stable
insertion sort with respect to the comparator
`(a, b) => b.similarity - a.similarity`, i.e. descending by similarity with
ties kept in input order. -/

/-- `EmbeddingData` from `server/services/embeddingsService.ts`. -/
structure EmbeddingData where
  chunkId : String
  embedding : List ℚ
  filename : String
  country : String
  pageNumber : Nat
  text : List Char
  deriving Repr, DecidableEq

/-- `SearchResult` from `server/services/vectorSearch.ts`. -/
structure SearchResult where
  chunkId : String
  filename : String
  country : String
  pageNumber : Nat
  text : List Char
  similarity : ℚ
  deriving Repr, DecidableEq

/-- The `embeddings.map(...)` step of `searchSimilarDocuments`: score every
record against the query vector. -/
def scoreResults (sim : List ℚ → List ℚ → ℚ) (queryEmbedding : List ℚ)
    (embeddings : List EmbeddingData) : List SearchResult :=
  embeddings.map (fun e =>
    { chunkId := e.chunkId
      filename := e.filename
      country := e.country
      pageNumber := e.pageNumber
      text := e.text
      similarity := sim queryEmbedding e.embedding })

/-- Insert into a descending-sorted list, after any element of equal
similarity: the insertion step of a stable descending sort. -/
def insertDesc (x : SearchResult) : List SearchResult → List SearchResult
  | [] => [x]
  | y :: ys => if x.similarity ≤ y.similarity then y :: insertDesc x ys else x :: y :: ys

/-- Stable sort descending by similarity, realizing the ECMAScript stable
`sort((a, b) => b.similarity - a.similarity)`. -/
def stableSortDesc (l : List SearchResult) : List SearchResult :=
  l.foldl (fun acc x => insertDesc x acc) []

/-- `searchSimilarDocuments(query, embeddings, topK, minSimilarity)` from
`server/services/vectorSearch.ts`: score, filter by the similarity floor,
sort descending (stable), truncate to `topK`. -/
def searchSimilarDocuments (sim : List ℚ → List ℚ → ℚ) (queryEmbedding : List ℚ)
    (embeddings : List EmbeddingData) (topK : Nat) (minSimilarity : ℚ) : List SearchResult :=
  (stableSortDesc ((scoreResults sim queryEmbedding embeddings).filter
    (fun r => minSimilarity ≤ r.similarity))).take topK

theorem insertDesc_perm (x : SearchResult) (l : List SearchResult) :
    insertDesc x l ~ x :: l := by
  induction l with
  | nil => rfl
  | cons y ys ih =>
    unfold insertDesc
    by_cases h : x.similarity ≤ y.similarity
    · rw [if_pos h]
      calc y :: insertDesc x ys ~ y :: x :: ys := List.Perm.cons y ih
        _ ~ x :: y :: ys := List.Perm.swap x y ys
    · rw [if_neg h]

theorem insertDesc_sorted (x : SearchResult) (l : List SearchResult)
    (h : List.Pairwise (fun a b => b.similarity ≤ a.similarity) l) :
    List.Pairwise (fun a b => b.similarity ≤ a.similarity) (insertDesc x l) := by
  induction l with
  | nil => simp [insertDesc]
  | cons y ys ih =>
    rcases List.pairwise_cons.mp h with ⟨hy, hys⟩
    unfold insertDesc
    by_cases hxy : x.similarity ≤ y.similarity
    · rw [if_pos hxy]
      apply List.pairwise_cons.mpr
      refine ⟨?_, ih hys⟩
      intro z hz
      have : z ∈ x :: ys := (insertDesc_perm x ys).mem_iff.mp hz
      rcases List.mem_cons.mp this with h1 | h2
      · subst h1; exact hxy
      · exact hy z h2
    · rw [if_neg hxy]
      push_neg at hxy
      apply List.pairwise_cons.mpr
      refine ⟨?_, h⟩
      intro z hz
      rcases List.mem_cons.mp hz with h1 | h2
      · subst h1; exact le_of_lt hxy
      · exact le_trans (hy z h2) (le_of_lt hxy)

theorem insertDesc_filter_eq (x : SearchResult) (l : List SearchResult) (s : ℚ)
    (h : List.Pairwise (fun a b => b.similarity ≤ a.similarity) l) :
    (insertDesc x l).filter (fun r => r.similarity = s) =
      if x.similarity = s then l.filter (fun r => r.similarity = s) ++ [x]
      else l.filter (fun r => r.similarity = s) := by
  induction l with
  | nil =>
    by_cases hx : x.similarity = s <;> simp [insertDesc, List.filter, hx]
  | cons y ys ih =>
    rcases List.pairwise_cons.mp h with ⟨hy, hys⟩
    unfold insertDesc
    by_cases hxy : x.similarity ≤ y.similarity
    · rw [if_pos hxy]
      by_cases hx : x.similarity = s <;>
        by_cases hyeq : y.similarity = s <;>
          simp [List.filter_cons, hx, hyeq, ih hys]
    · rw [if_neg hxy]
      push_neg at hxy
      by_cases hx : x.similarity = s
      · have hnone : (y :: ys).filter (fun r => r.similarity = s) = [] := by
          apply List.filter_eq_nil_iff.mpr
          intro z hz
          have hzle : z.similarity ≤ y.similarity := by
            rcases List.mem_cons.mp hz with h1 | h2
            · subst h1; exact le_refl _
            · exact hy z h2
          have : z.similarity < x.similarity := lt_of_le_of_lt hzle hxy
          simp only [decide_eq_true_eq]
          intro hzs
          rw [hzs, ← hx] at this
          exact lt_irrefl _ this
        simp [List.filter_cons, hx, hnone]
      · simp [List.filter_cons, hx]

theorem foldl_insertDesc_sorted (l acc : List SearchResult)
    (h : List.Pairwise (fun a b => b.similarity ≤ a.similarity) acc) :
    List.Pairwise (fun a b => b.similarity ≤ a.similarity)
      (l.foldl (fun a x => insertDesc x a) acc) := by
  induction l generalizing acc with
  | nil => exact h
  | cons x xs ih => exact ih (insertDesc x acc) (insertDesc_sorted x acc h)

theorem foldl_insertDesc_perm (l acc : List SearchResult) :
    l.foldl (fun a x => insertDesc x a) acc ~ acc ++ l := by
  induction l generalizing acc with
  | nil => simp
  | cons x xs ih =>
    calc (x :: xs).foldl (fun a x => insertDesc x a) acc
        = xs.foldl (fun a x => insertDesc x a) (insertDesc x acc) := rfl
      _ ~ insertDesc x acc ++ xs := ih (insertDesc x acc)
      _ ~ (x :: acc) ++ xs := (insertDesc_perm x acc).append_right xs
      _ ~ acc ++ x :: xs := List.perm_middle.symm

theorem foldl_insertDesc_filter (l : List SearchResult) (s : ℚ) :
    ∀ acc : List SearchResult,
      List.Pairwise (fun a b => b.similarity ≤ a.similarity) acc →
      (l.foldl (fun a x => insertDesc x a) acc).filter (fun r => r.similarity = s) =
        acc.filter (fun r => r.similarity = s) ++ l.filter (fun r => r.similarity = s) := by
  induction l with
  | nil => intro acc _; simp
  | cons x xs ih =>
    intro acc hacc
    have step : (x :: xs).foldl (fun a y => insertDesc y a) acc
        = xs.foldl (fun a y => insertDesc y a) (insertDesc x acc) := rfl
    rw [step, ih (insertDesc x acc) (insertDesc_sorted x acc hacc),
      insertDesc_filter_eq x acc s hacc]
    by_cases hx : x.similarity = s <;> simp [List.filter_cons, hx]

theorem stableSortDesc_sorted (l : List SearchResult) :
    List.Pairwise (fun a b => b.similarity ≤ a.similarity) (stableSortDesc l) :=
  foldl_insertDesc_sorted l [] (by simp)

theorem stableSortDesc_perm (l : List SearchResult) : stableSortDesc l ~ l := by
  simpa using foldl_insertDesc_perm l []

theorem stableSortDesc_filter (l : List SearchResult) (s : ℚ) :
    (stableSortDesc l).filter (fun r => r.similarity = s) =
      l.filter (fun r => r.similarity = s) := by
  simpa using foldl_insertDesc_filter l s [] (by simp)

/-- C3: for every query vector, record list, topK and minSimilarity,
`searchSimilarDocuments` returns at most `topK` results, every returned
result has similarity at least `minSimilarity`, the results are sorted by
similarity descending, and records of equal similarity appear in their
original input order (the output restricted to any one similarity value is
a sublist of the scored input restricted to that value).  This holds for
every similarity function `sim`, in particular for the floating point
cosine similarity of the source. -/
theorem searchSimilarDocuments_contract (sim : List ℚ → List ℚ → ℚ)
    (queryEmbedding : List ℚ) (embeddings : List EmbeddingData) (topK : Nat)
    (minSimilarity : ℚ) :
    (searchSimilarDocuments sim queryEmbedding embeddings topK minSimilarity).length ≤ topK ∧
    (∀ r ∈ searchSimilarDocuments sim queryEmbedding embeddings topK minSimilarity,
      minSimilarity ≤ r.similarity) ∧
    List.Pairwise (fun a b => b.similarity ≤ a.similarity)
      (searchSimilarDocuments sim queryEmbedding embeddings topK minSimilarity) ∧
    (∀ s : ℚ, List.Sublist
      ((searchSimilarDocuments sim queryEmbedding embeddings topK minSimilarity).filter
        (fun r => r.similarity = s))
      ((scoreResults sim queryEmbedding embeddings).filter (fun r => r.similarity = s))) := by
  refine ⟨?_, ?_, ?_, ?_⟩
  · exact List.length_take_le _ _
  · intro r hr
    unfold searchSimilarDocuments at hr
    have hmem : r ∈ stableSortDesc ((scoreResults sim queryEmbedding embeddings).filter
        (fun r => minSimilarity ≤ r.similarity)) := List.mem_of_mem_take hr
    have : r ∈ (scoreResults sim queryEmbedding embeddings).filter
        (fun r => minSimilarity ≤ r.similarity) :=
      (stableSortDesc_perm _).mem_iff.mp hmem
    have := List.of_mem_filter this
    simpa using this
  · unfold searchSimilarDocuments
    exact (stableSortDesc_sorted _).sublist (List.take_sublist _ _)
  · intro s
    unfold searchSimilarDocuments
    have h1 : List.Sublist
        (((stableSortDesc ((scoreResults sim queryEmbedding embeddings).filter
          (fun r => minSimilarity ≤ r.similarity))).take topK).filter
            (fun r => r.similarity = s))
        ((stableSortDesc ((scoreResults sim queryEmbedding embeddings).filter
          (fun r => minSimilarity ≤ r.similarity))).filter (fun r => r.similarity = s)) :=
      List.Sublist.filter _ (List.take_sublist _ _)
    have h2 : (stableSortDesc ((scoreResults sim queryEmbedding embeddings).filter
          (fun r => minSimilarity ≤ r.similarity))).filter (fun r => r.similarity = s) =
        ((scoreResults sim queryEmbedding embeddings).filter
          (fun r => minSimilarity ≤ r.similarity)).filter (fun r => r.similarity = s) :=
      stableSortDesc_filter _ s
    have h3 : List.Sublist
        (((scoreResults sim queryEmbedding embeddings).filter
          (fun r => minSimilarity ≤ r.similarity)).filter (fun r => r.similarity = s))
        ((scoreResults sim queryEmbedding embeddings).filter (fun r => r.similarity = s)) :=
      List.Sublist.filter _ (List.filter_sublist _)
    rw [h2] at h1
    exact h1.trans h3

/-! Embedding of `generateEmbeddings`, `saveEmbeddingsCache` and
`loadEmbeddingsCache` from `server/services/embeddingsService.ts`.  The
OpenAI embedding call is the capability parameter `embedBatch`
(`Except.error` is a rejected promise); the persisted JSON document is
modelled as its parsed structure (`JSON.stringify`/`JSON.parse` of these
records round-trips them). -/

/-- `BATCH_SIZE` constant of `embeddingsService.ts`. -/
def BATCH_SIZE : Nat := 100

/-- The records pushed for one batch: on a failed batch the catch block
swallows the error and contributes nothing; on success chunk `j` of the
batch is joined with vector `j` of the response (JavaScript indexing past
the end of the response array is modelled as the empty vector). -/
def batchRecords (embedBatch : List (List Char) → Except String (List (List ℚ)))
    (batch : List PDFChunk) : List EmbeddingData :=
  match embedBatch (batch.map (fun c => c.text)) with
  | .error _ => []
  | .ok vecs => batch.enum.map (fun p =>
      { chunkId := p.2.id
        embedding := vecs.getD p.1 []
        filename := p.2.filename
        country := p.2.country
        pageNumber := p.2.pageNumber
        text := p.2.text })

/-- `generateEmbeddings(chunks)` from `embeddingsService.ts`: the batch loop
(`for (let i = 0; i < chunks.length; i += BATCH_SIZE)`) with its per-batch
try/catch.  The function is total: every failure is caught inside the loop,
so it never raises to its caller. -/
def generateEmbeddings (embedBatch : List (List Char) → Except String (List (List ℚ)))
    (chunks : List PDFChunk) : List EmbeddingData :=
  if h : chunks = [] then []
  else
    batchRecords embedBatch (chunks.take BATCH_SIZE) ++
      generateEmbeddings embedBatch (chunks.drop BATCH_SIZE)
termination_by chunks.length
decreasing_by
  rw [List.length_drop]
  have hl : 0 < chunks.length := List.length_pos.mpr h
  simp [BATCH_SIZE]
  omega

/-- The batches the loop of `generateEmbeddings` walks through. -/
def batchesOf (chunks : List PDFChunk) : List (List PDFChunk) :=
  if h : chunks = [] then []
  else chunks.take BATCH_SIZE :: batchesOf (chunks.drop BATCH_SIZE)
termination_by chunks.length
decreasing_by
  rw [List.length_drop]
  have hl : 0 < chunks.length := List.length_pos.mpr h
  simp [BATCH_SIZE]
  omega

theorem generateEmbeddings_eq_join (embedBatch : List (List Char) → Except String (List (List ℚ))) :
    ∀ chunks : List PDFChunk,
      generateEmbeddings embedBatch chunks =
        ((batchesOf chunks).map (batchRecords embedBatch)).flatten := by
  intro chunks
  generalize hn : chunks.length = n
  induction n using Nat.strong_induction_on generalizing chunks with
  | _ n ih =>
    by_cases h : chunks = []
    · subst h
      rw [generateEmbeddings, batchesOf]
      simp
    · rw [generateEmbeddings, batchesOf, dif_neg h, dif_neg h, List.map_cons, List.flatten]
      congr 1
      have hl : 0 < chunks.length := List.length_pos.mpr h
      refine ih ((chunks.drop BATCH_SIZE).length) ?_ (chunks.drop BATCH_SIZE) rfl
      rw [List.length_drop]
      have hb : BATCH_SIZE = 100 := rfl
      omega

/-- C5: if the embedding capability fails for one batch out of many, the
batch loop of `generateEmbeddings` still returns embedding records for all
chunks of every batch whose call succeeded — in particular every other
batch — and, the per-batch try/catch swallowing every failure, the function
is total and never raises to its caller (it returns a plain list, not an
`Except`). -/
theorem generateEmbeddings_partial_success
    (embedBatch : List (List Char) → Except String (List (List ℚ)))
    (chunks : List PDFChunk) (bfail : List PDFChunk)
    (hbf : bfail ∈ batchesOf chunks) (err : String)
    (hfail : embedBatch (bfail.map (fun c => c.text)) = Except.error err)
    (batch : List PDFChunk) (hmem : batch ∈ batchesOf chunks)
    (vecs : List (List ℚ))
    (hok : embedBatch (batch.map (fun c => c.text)) = Except.ok vecs) :
    ∀ c ∈ batch, ∃ r ∈ generateEmbeddings embedBatch chunks,
      r.chunkId = c.id ∧ r.text = c.text ∧ r.filename = c.filename ∧
      r.country = c.country ∧ r.pageNumber = c.pageNumber := by
  intro c hc
  have hsnd : batch.enum.map Prod.snd = batch := List.enum_map_snd batch
  have hc2 : c ∈ batch.enum.map Prod.snd := by rw [hsnd]; exact hc
  rcases List.mem_map.mp hc2 with ⟨p, hp, hpc⟩
  refine ⟨{ chunkId := p.2.id
            embedding := vecs.getD p.1 []
            filename := p.2.filename
            country := p.2.country
            pageNumber := p.2.pageNumber
            text := p.2.text }, ?_, ?_⟩
  · rw [generateEmbeddings_eq_join]
    apply List.mem_flatten.mpr
    refine ⟨batchRecords embedBatch batch, List.mem_map_of_mem _ hmem, ?_⟩
    unfold batchRecords
    rw [hok]
    exact List.mem_map_of_mem _ hp
  · subst hpc
    exact ⟨rfl, rfl, rfl, rfl, rfl⟩

/-- A concrete chunk record used to instantiate the theorems. -/
def exampleChunk : PDFChunk :=
  { id := "chunk_0", filename := "a.pdf", filepath := "data/a.pdf",
    country := "unknown", pageNumber := 1, text := ['a'], chunkIndex := 0 }

/-- 101 chunks: two batches at `BATCH_SIZE = 100`, of 100 and 1 chunks. -/
def exampleChunks101 : List PDFChunk := List.replicate 101 exampleChunk

/-- An embedding capability that fails exactly on the batch of one text (the
second batch of `exampleChunks101`) and succeeds on every other batch. -/
def exampleEmbedBatch : List (List Char) → Except String (List (List ℚ)) :=
  fun ts => if ts.length = 1 then Except.error "boom" else Except.ok (ts.map (fun _ => [1]))

theorem batchesOf_exampleChunks101 :
    batchesOf exampleChunks101 = [List.replicate 100 exampleChunk, [exampleChunk]] := by
  rw [batchesOf]
  rw [dif_neg (by simp [exampleChunks101])]
  rw [batchesOf]
  rw [dif_neg (by simp [exampleChunks101, BATCH_SIZE])]
  rw [batchesOf]
  simp [exampleChunks101, BATCH_SIZE, List.take_replicate, List.drop_replicate,
    List.replicate_succ]

theorem generateEmbeddings_partial_success_witness :
    ∃ r ∈ generateEmbeddings exampleEmbedBatch exampleChunks101,
      r.chunkId = exampleChunk.id ∧ r.text = exampleChunk.text ∧
      r.filename = exampleChunk.filename ∧ r.country = exampleChunk.country ∧
      r.pageNumber = exampleChunk.pageNumber := by
  refine generateEmbeddings_partial_success exampleEmbedBatch exampleChunks101
    [exampleChunk] ?_ "boom" ?_ (List.replicate 100 exampleChunk) ?_
    (List.replicate 100 [(1 : ℚ)]) ?_ exampleChunk ?_
  · rw [batchesOf_exampleChunks101]; simp
  · simp [exampleEmbedBatch]
  · rw [batchesOf_exampleChunks101]; simp
  · simp [exampleEmbedBatch, List.map_replicate]
  · simp [List.mem_replicate]

/-- `CachedEmbeddingData` from `embeddingsService.ts`: the persisted record,
deliberately without the chunk text. -/
structure CachedEmbeddingData where
  chunkId : String
  embedding : List ℚ
  filename : String
  country : String
  pageNumber : Nat
  deriving Repr, DecidableEq

/-- `EmbeddingsCache` from `embeddingsService.ts`: the persisted document. -/
structure EmbeddingsCache where
  version : String
  createdAt : String
  embeddings : List CachedEmbeddingData
  deriving Repr, DecidableEq

/-- `saveEmbeddingsCache(embeddings)` from `embeddingsService.ts`: strip the
text from every record and persist them under a version header. -/
def saveEmbeddingsCache (now : String) (embeddings : List EmbeddingData) : EmbeddingsCache :=
  { version := "1.0"
    createdAt := now
    embeddings := embeddings.map (fun e =>
      { chunkId := e.chunkId
        embedding := e.embedding
        filename := e.filename
        country := e.country
        pageNumber := e.pageNumber }) }

/-- The lookup of `new Map(chunks.map(chunk => [chunk.id, chunk]))`: a later
entry with the same key overwrites an earlier one, so the last matching
chunk wins. -/
def chunkMapGet (chunks : List PDFChunk) (chunkId : String) : Option PDFChunk :=
  chunks.reverse.find? (fun c => c.id = chunkId)

/-- `loadEmbeddingsCache(chunks)` from `embeddingsService.ts`: rejoin every
cached record with the text of its chunk; a record whose chunk id resolves
to no live chunk gets empty text (`chunk?.text || ""`). -/
def loadEmbeddingsCache (cache : EmbeddingsCache) (chunks : List PDFChunk) : List EmbeddingData :=
  cache.embeddings.map (fun cached =>
    { chunkId := cached.chunkId
      embedding := cached.embedding
      filename := cached.filename
      country := cached.country
      pageNumber := cached.pageNumber
      text := ((chunkMapGet chunks cached.chunkId).map (fun c => c.text)).getD [] })

/-- C6: loading the persisted cache right after saving it reconstructs, for
every position, a record with the same chunk id and a bit-identical vector
(in particular for every chunk id present in both the cache and the chunk
set), and a cached record whose chunk id resolves to no live chunk is
reconstructed with empty text rather than failing. -/
theorem embeddingsCache_roundtrip (now : String) (embeddings : List EmbeddingData)
    (chunks : List PDFChunk) :
    (loadEmbeddingsCache (saveEmbeddingsCache now embeddings) chunks).length =
      embeddings.length ∧
    (∀ i : Nat, i < embeddings.length →
      ∃ e r, embeddings[i]? = some e ∧
        (loadEmbeddingsCache (saveEmbeddingsCache now embeddings) chunks)[i]? = some r ∧
        r.chunkId = e.chunkId ∧ r.embedding = e.embedding ∧
        ((∀ c ∈ chunks, c.id ≠ e.chunkId) → r.text = [])) := by
  have hload : loadEmbeddingsCache (saveEmbeddingsCache now embeddings) chunks =
      embeddings.map (fun e =>
        { chunkId := e.chunkId
          embedding := e.embedding
          filename := e.filename
          country := e.country
          pageNumber := e.pageNumber
          text := ((chunkMapGet chunks e.chunkId).map (fun c => c.text)).getD [] }) := by
    unfold loadEmbeddingsCache saveEmbeddingsCache
    rw [List.map_map]
    rfl
  constructor
  · rw [hload, List.length_map]
  · intro i hi
    have hr : (loadEmbeddingsCache (saveEmbeddingsCache now embeddings) chunks)[i]? =
        some { chunkId := embeddings[i].chunkId
               embedding := embeddings[i].embedding
               filename := embeddings[i].filename
               country := embeddings[i].country
               pageNumber := embeddings[i].pageNumber
               text := ((chunkMapGet chunks embeddings[i].chunkId).map
                 (fun c => c.text)).getD [] } := by
      rw [hload, List.getElem?_map, List.getElem?_eq_getElem hi]
      rfl
    refine ⟨embeddings[i], _, List.getElem?_eq_getElem hi, hr, rfl, rfl, ?_⟩
    intro hno
    have hnone : chunkMapGet chunks embeddings[i].chunkId = none := by
      apply List.find?_eq_none.mpr
      intro c hc
      have : c.id ≠ embeddings[i].chunkId := hno c (List.mem_reverse.mp hc)
      simpa using this
    simp [hnone]

/-- C2: the true part of the claim — empty text yields zero chunks — holds
for every size and overlap; but the claimed rejection of `overlap >= size`
does not exist in the code: `chunkText` performs no validation, and on any
nonempty text with `overlap >= size` its loop never advances
(`start += chunkSize - overlap` adds a nonpositive amount) and never
terminates — no configuration error is raised.  Non-termination is witnessed
by the fuel embedding returning `none` at every fuel on the two-character
text `"ab"` with size 1 and overlap 1. -/
theorem chunkText_no_overlap_validation :
    (∀ chunkSize overlap : Nat, chunkText [] chunkSize overlap = some []) ∧
    (∀ fuel : Nat, chunkTextFuel ['a', 'b'] 1 1 fuel 0 = none) ∧
    chunkText ['a', 'b'] 1 1 = none := by
  refine ⟨?_, ?_, ?_⟩
  · intro chunkSize overlap
    unfold chunkText
    rw [chunkTextFuel_neg]
    simp
  · intro fuel
    exact chunkTextFuel_none_of_overlap_ge ['a', 'b'] 1 1 (le_refl 1) (by simp) fuel 0
      (le_refl 0)
  · exact chunkTextFuel_none_of_overlap_ge ['a', 'b'] 1 1 (le_refl 1) (by simp) 3 0
      (le_refl 0)

/-- C7: a corpus root with one file `data/switzerland/a.pdf` whose extracted
text has exactly 2500 characters, processed at chunk size 1000 and overlap
200, yields exactly 4 chunks (starts 0, 800, 1600, 2400), every one tagged
with country `"switzerland"` derived from the first path segment under the
corpus root. -/
theorem processPDFs_switzerland_scenario (text : List Char) (numPages : Nat)
    (hlen : text.length = 2500) (hws : text.all Char.isWhitespace = false) :
    ∃ cs, processPDFs [{ filepath := "data/switzerland/a.pdf"
                         relParts := ["switzerland", "a.pdf"]
                         text := text
                         numPages := numPages }] = some cs ∧
      cs.length = 4 ∧ ∀ c ∈ cs, c.country = "switzerland" := by
  have hl : (text.length : Int) = 2500 := by exact_mod_cast hlen
  have hchunk : ∃ s0 s1 s2 s3, chunkText text CHUNK_SIZE CHUNK_OVERLAP =
      some [s0, s1, s2, s3] := by
    unfold chunkText
    rw [hlen]
    rw [show (2500 + 1 : Nat) = 2500 + 1 from rfl,
      chunkTextFuel_pos text CHUNK_SIZE CHUNK_OVERLAP 2500 0 (by omega)]
    norm_num [CHUNK_SIZE, CHUNK_OVERLAP, hl]
    rw [show (2500 : Nat) = 2499 + 1 from rfl,
      chunkTextFuel_pos text 1000 200 2499 800 (by omega)]
    norm_num [hl]
    rw [show (2499 : Nat) = 2498 + 1 from rfl,
      chunkTextFuel_pos text 1000 200 2498 1600 (by omega)]
    norm_num [hl]
    rw [show (2498 : Nat) = 2497 + 1 from rfl,
      chunkTextFuel_pos text 1000 200 2497 2400 (by omega)]
    norm_num [hl]
    rw [show (2497 : Nat) = 2496 + 1 from rfl,
      chunkTextFuel_neg text 1000 200 2496 3200 (by omega)]
  rcases hchunk with ⟨s0, s1, s2, s3, hc⟩
  refine ⟨fileChunks { filepath := "data/switzerland/a.pdf"
                       relParts := ["switzerland", "a.pdf"]
                       text := text
                       numPages := numPages } 0 [s0, s1, s2, s3] ++ [], ?_, ?_, ?_⟩
  · unfold processPDFs processPDFsGo
    rw [hws]
    simp only [Bool.false_eq_true, if_false]
    rw [hc]
    rfl
  · rw [List.append_nil]
    unfold fileChunks
    rw [fileChunksGo_length]
    rfl
  · intro c hc2
    rw [List.append_nil] at hc2
    rw [fileChunksGo_country _ 0 [s0, s1, s2, s3] 0 c hc2]
    simp [countryOf]

/-- A 2500-character extracted text. -/
def exampleText2500 : List Char := List.replicate 2500 'x'

theorem processPDFs_switzerland_scenario_witness :
    ∃ cs, processPDFs [{ filepath := "data/switzerland/a.pdf"
                         relParts := ["switzerland", "a.pdf"]
                         text := exampleText2500
                         numPages := 5 }] = some cs ∧
      cs.length = 4 ∧ ∀ c ∈ cs, c.country = "switzerland" :=
  processPDFs_switzerland_scenario exampleText2500 5
    (List.length_replicate 2500 'x')
    (by
      apply Bool.eq_false_iff.mpr
      intro h
      rw [List.all_eq_true] at h
      have := h 'x' (List.mem_replicate.mpr ⟨by norm_num, rfl⟩)
      simp [Char.isWhitespace] at this)

theorem processPDFsGo_ids (files : List SourceFile) :
    ∀ (counter : Nat) (cs : List PDFChunk), processPDFsGo files counter = some cs →
      cs.map (fun c => c.id) =
        (List.range' counter cs.length).map (fun k => "chunk_" ++ decimalRepr k) := by
  induction files with
  | nil =>
    intro counter cs h
    unfold processPDFsGo at h
    injection h with h
    subst h
    rfl
  | cons f fs ih =>
    intro counter cs h
    unfold processPDFsGo at h
    by_cases hw : f.text.all Char.isWhitespace
    · rw [if_pos hw] at h
      exact ih counter cs h
    · rw [if_neg hw] at h
      cases hseg : chunkText f.text CHUNK_SIZE CHUNK_OVERLAP with
      | none => rw [hseg] at h; simp at h
      | some segs =>
        rw [hseg] at h
        dsimp only at h
        cases hrest : processPDFsGo fs (counter + segs.length) with
        | none => rw [hrest] at h; simp at h
        | some rest =>
          rw [hrest] at h
          dsimp only at h
          injection h with h
          subst h
          rw [List.map_append]
          unfold fileChunks
          rw [fileChunksGo_map_id, ih _ rest hrest]
          rw [show counter + 0 = counter from rfl]
          rw [← List.map_append, List.range'_append_1]
          rw [List.length_append, fileChunksGo_length, Nat.add_comm rest.length segs.length]

theorem processPDFsGo_blocks (files : List SourceFile) :
    ∀ (counter : Nat) (cs : List PDFChunk), processPDFsGo files counter = some cs →
      ∃ blocks : List (List PDFChunk), cs = blocks.flatten ∧
        blocks.length = files.length ∧
        ∀ b ∈ blocks, b.map (fun c => c.chunkIndex) = List.range b.length := by
  induction files with
  | nil =>
    intro counter cs h
    unfold processPDFsGo at h
    injection h with h
    subst h
    exact ⟨[], rfl, rfl, by simp⟩
  | cons f fs ih =>
    intro counter cs h
    unfold processPDFsGo at h
    by_cases hw : f.text.all Char.isWhitespace
    · rw [if_pos hw] at h
      rcases ih counter cs h with ⟨blocks, h1, h2, h3⟩
      refine ⟨[] :: blocks, by simpa using h1, by simpa using h2, ?_⟩
      intro b hb
      rcases List.mem_cons.mp hb with h4 | h4
      · subst h4; rfl
      · exact h3 b h4
    · rw [if_neg hw] at h
      cases hseg : chunkText f.text CHUNK_SIZE CHUNK_OVERLAP with
      | none => rw [hseg] at h; simp at h
      | some segs =>
        rw [hseg] at h
        dsimp only at h
        cases hrest : processPDFsGo fs (counter + segs.length) with
        | none => rw [hrest] at h; simp at h
        | some rest =>
          rw [hrest] at h
          dsimp only at h
          injection h with h
          subst h
          rcases ih _ rest hrest with ⟨blocks, h1, h2, h3⟩
          refine ⟨fileChunks f counter segs :: blocks, by simp [h1], by simpa using h2, ?_⟩
          intro b hb
          rcases List.mem_cons.mp hb with h4 | h4
          · subst h4
            unfold fileChunks
            rw [fileChunksGo_map_chunkIndex, fileChunksGo_length,
              List.range_eq_range' segs.length]
          · exact h3 b h4

/-- C9: every chunk list returned by `processPDFs` has pairwise distinct
chunk ids — they are `"chunk_" ++ k` for consecutive counter values `k`
assigned across all files of the corpus — while `chunkIndex` restarts at 0
within each file (the output splits into one block per input file whose
chunk indices are exactly `0, 1, 2, ...`). -/
theorem processPDFs_chunk_ids_nodup (files : List SourceFile) (cs : List PDFChunk)
    (h : processPDFs files = some cs) :
    (cs.map (fun c => c.id)).Nodup ∧
    ∃ blocks : List (List PDFChunk), cs = blocks.flatten ∧
      blocks.length = files.length ∧
      ∀ b ∈ blocks, b.map (fun c => c.chunkIndex) = List.range b.length := by
  constructor
  · rw [processPDFsGo_ids files 0 cs h]
    exact (List.nodup_range' 0 cs.length).map chunkId_inj
  · exact processPDFsGo_blocks files 0 cs h

/-- A one-file corpus used to instantiate the chunk id theorem. -/
def exampleFilesC9 : List SourceFile :=
  [{ filepath := "data/f.pdf", relParts := ["f.pdf"], text := ['a', 'b'], numPages := 1 }]

/-- The chunks `processPDFs` produces for `exampleFilesC9`. -/
def exampleChunksC9 : List PDFChunk :=
  [{ id := "chunk_0", filename := "f.pdf", filepath := "data/f.pdf", country := "unknown",
     pageNumber := 1, text := ['a', 'b'], chunkIndex := 0 }]

theorem processPDFs_chunk_ids_nodup_witness :
    (exampleChunksC9.map (fun c => c.id)).Nodup ∧
    ∃ blocks : List (List PDFChunk), exampleChunksC9 = blocks.flatten ∧
      blocks.length = exampleFilesC9.length ∧
      ∀ b ∈ blocks, b.map (fun c => c.chunkIndex) = List.range b.length :=
  processPDFs_chunk_ids_nodup exampleFilesC9 exampleChunksC9 (by decide)

/-! Embedding of the case/report data model of `shared/schema.ts` and of
`MemStorage` from `server/storage.ts`.  JavaScript `Map` objects keyed by id
are association lists in insertion order: `set` replaces an existing binding
in place or appends a new one.  Enumerations that travel through JSON
(urgency, confidence) are modelled as their string values; `z.number()`
fields used only for comparison with small integers are modelled as `Nat`. -/

/-- `status` enumeration of `caseSchema`. -/
inductive CaseStatus
  | draft
  | verified
  | completed
  deriving Repr, DecidableEq

/-- `ExtractedEntities` from `shared/schema.ts` (all fields optional). -/
structure ExtractedEntities where
  hostCountry : Option String
  medicalNeeds : Option (List String)
  educationNeeds : Option (List String)
  age : Option Nat
  familySize : Option Nat
  complications : Option (List String)
  urgencyLevel : Option String
  deriving Repr, DecidableEq

/-- `Case` from `shared/schema.ts`. -/
structure Case where
  id : String
  caseNumber : String
  notes : String
  audioTranscription : Option String
  extractedEntities : ExtractedEntities
  status : CaseStatus
  createdAt : String
  updatedAt : String
  deriving Repr, DecidableEq

/-- `rightType` enumeration of `rightsAnalysisSchema`. -/
inductive RightType
  | asylum
  | documentation
  | education
  | family_life
  | freedom_movement
  | health
  | housing
  | liberty_security
  | nationality
  | social_protection
  | work
  deriving Repr, DecidableEq

/-- `SimilarCase` from `shared/schema.ts`. -/
structure SimilarCase where
  id : String
  title : String
  description : String
  link : String
  filename : String
  pageNumber : Nat
  confidence : String
  similarity : ℚ
  deriving Repr, DecidableEq

/-- The `citation` object of a rights analysis (the degraded no-documents
prompt asks for `null` filename and page, hence the options). -/
structure Citation where
  quote : String
  source : String
  filename : Option String
  pageNumber : Option Nat
  deriving Repr, DecidableEq

/-- `RightsAnalysis` from `shared/schema.ts`. -/
structure RightsAnalysis where
  rightType : RightType
  summary : String
  legalBasis : String
  citation : Citation
  complications : List String
  risks : List String
  similarCases : List SimilarCase
  confidenceLevel : String
  deriving Repr, DecidableEq

/-- `Report` from `shared/schema.ts`. -/
structure Report where
  id : String
  caseId : String
  caseNumber : String
  generatedAt : String
  rightsAnalysis : List RightsAnalysis
  disclaimer : String
  deriving Repr, DecidableEq

/-- `Map.prototype.get`. -/
def mapGet {α : Type} : List (String × α) → String → Option α
  | [], _ => none
  | (k', v') :: rest, k => if k' = k then some v' else mapGet rest k

/-- `Map.prototype.set`: replace an existing binding in place, else append. -/
def mapSet {α : Type} : List (String × α) → String → α → List (String × α)
  | [], k, v => [(k, v)]
  | (k', v') :: rest, k, v =>
    if k' = k then (k, v) :: rest else (k', v') :: mapSet rest k v

/-- The in-memory state of `MemStorage` (the `users` map plays no role in
the verified operations). -/
structure StorageState where
  cases : List (String × Case)
  reports : List (String × Report)
  deriving Repr, DecidableEq

/-- `MemStorage.getCase`. -/
def getCase (storage : StorageState) (id : String) : Option Case :=
  mapGet storage.cases id

/-- `Partial<Case>`: a patch may carry any subset of the fields of `Case`
(a field that is present replaces the stored value on spread). -/
structure CasePatch where
  id : Option String
  caseNumber : Option String
  notes : Option String
  audioTranscription : Option (Option String)
  extractedEntities : Option ExtractedEntities
  status : Option CaseStatus
  createdAt : Option String
  updatedAt : Option String
  deriving Repr, DecidableEq

/-- The empty patch. -/
def emptyPatch : CasePatch :=
  { id := none, caseNumber := none, notes := none, audioTranscription := none
    extractedEntities := none, status := none, createdAt := none, updatedAt := none }

/-- `MemStorage.updateCase(id, updates)`: the spread
`{ ...existingCase, ...updates, id, updatedAt: now }` — patched fields
override stored ones, the `id` literal then overrides any id carried by the
patch, and `updatedAt` is stamped with the current time regardless of the
patch.  Returns `undefined` and leaves the store untouched when no case with
the given id exists. -/
def updateCase (storage : StorageState) (id : String) (updates : CasePatch)
    (now : String) : Option Case × StorageState :=
  match mapGet storage.cases id with
  | none => (none, storage)
  | some existingCase =>
    let updatedCase : Case :=
      { id := id
        caseNumber := updates.caseNumber.getD existingCase.caseNumber
        notes := updates.notes.getD existingCase.notes
        audioTranscription := updates.audioTranscription.getD existingCase.audioTranscription
        extractedEntities := updates.extractedEntities.getD existingCase.extractedEntities
        status := updates.status.getD existingCase.status
        createdAt := updates.createdAt.getD existingCase.createdAt
        updatedAt := now }
    (some updatedCase, { storage with cases := mapSet storage.cases id updatedCase })

/-- `MemStorage.createReport` with the fresh id already drawn (the source
draws a `randomUUID`). -/
def createReport (storage : StorageState) (report : Report) : Report × StorageState :=
  (report, { storage with reports := mapSet storage.reports report.id report })

theorem mapGet_mapSet_ne {α : Type} (l : List (String × α)) (k k' : String) (v : α)
    (h : k' ≠ k) : mapGet (mapSet l k v) k' = mapGet l k' := by
  induction l with
  | nil =>
    simp only [mapSet, mapGet]
    rw [if_neg (fun he => h he.symm)]
  | cons p rest ih =>
    rcases p with ⟨a, b⟩
    unfold mapSet
    by_cases hak : a = k
    · rw [if_pos hak]
      unfold mapGet
      rw [if_neg (fun he => h he.symm), if_neg (by rw [hak]; exact fun he => h he.symm)]
    · rw [if_neg hak]
      unfold mapGet
      by_cases hak' : a = k'
      · rw [if_pos hak', if_pos hak']
      · rw [if_neg hak', if_neg hak', ih]

/-- C10: `updateCase` preserves the stored record's id even if the patch
carries a different `id` field, changes only the patched fields plus
`updatedAt` (stamped with the current time), leaves every other key of the
store and the whole report map untouched, and when no case with the given id
exists it returns `undefined` and leaves the store completely unchanged. -/
theorem updateCase_contract (storage : StorageState) (id : String)
    (updates : CasePatch) (now : String) :
    (mapGet storage.cases id = none →
      updateCase storage id updates now = (none, storage)) ∧
    (∀ existingCase, mapGet storage.cases id = some existingCase →
      ∃ u, updateCase storage id updates now =
          (some u, { storage with cases := mapSet storage.cases id u }) ∧
        u.id = id ∧
        (existingCase.id = id → u.id = existingCase.id) ∧
        (updates.caseNumber = none → u.caseNumber = existingCase.caseNumber) ∧
        (∀ v, updates.caseNumber = some v → u.caseNumber = v) ∧
        (updates.notes = none → u.notes = existingCase.notes) ∧
        (∀ v, updates.notes = some v → u.notes = v) ∧
        (updates.audioTranscription = none →
          u.audioTranscription = existingCase.audioTranscription) ∧
        (updates.extractedEntities = none →
          u.extractedEntities = existingCase.extractedEntities) ∧
        (updates.status = none → u.status = existingCase.status) ∧
        (∀ v, updates.status = some v → u.status = v) ∧
        (updates.createdAt = none → u.createdAt = existingCase.createdAt) ∧
        u.updatedAt = now ∧
        (updateCase storage id updates now).2.reports = storage.reports ∧
        (∀ k, k ≠ id →
          mapGet (updateCase storage id updates now).2.cases k = mapGet storage.cases k)) := by
  constructor
  · intro h
    unfold updateCase
    rw [h]
  · intro existingCase h
    refine ⟨{ id := id
              caseNumber := updates.caseNumber.getD existingCase.caseNumber
              notes := updates.notes.getD existingCase.notes
              audioTranscription := updates.audioTranscription.getD existingCase.audioTranscription
              extractedEntities := updates.extractedEntities.getD existingCase.extractedEntities
              status := updates.status.getD existingCase.status
              createdAt := updates.createdAt.getD existingCase.createdAt
              updatedAt := now }, ?_, rfl, fun hid => hid.symm, ?_, ?_, ?_, ?_, ?_, ?_, ?_, ?_,
      ?_, rfl, ?_, ?_⟩
    · unfold updateCase
      rw [h]
    · intro hv; simp [hv]
    · intro v hv; simp [hv]
    · intro hv; simp [hv]
    · intro v hv; simp [hv]
    · intro hv; simp [hv]
    · intro hv; simp [hv]
    · intro hv; simp [hv]
    · intro v hv; simp [hv]
    · intro hv; simp [hv]
    · unfold updateCase
      rw [h]
    · intro k hk
      unfold updateCase
      rw [h]
      exact mapGet_mapSet_ne storage.cases id k _ hk

/-! Embedding of the `/api/report/generate` route from the server routes
file (`registerRoutes`).  The external collaborators are capability
parameters: `queryEmbed` is `generateQueryEmbedding` (its failure is
rethrown by `searchSimilarDocuments` and rejects the whole `Promise.all`),
`sim` the floating point cosine kernel, `gen` the structured chat completion
for a category given the assembled document context (`Except.error` is a
rejected promise, `ok none` a response with no content — the
`if (!analysisContent) return null` path, which also catches an empty
string), `parse` is `JSON.parse` plus the field reads on the parsed object
(`none` means `JSON.parse` threw), and `web` is `searchWebForSimilarCases`,
which catches every failure internally and returns a plain list.
`Promise.all` over the per-category pipelines is `mapM` in `Except`: one
rejected pipeline rejects the whole request. -/

/-- The fields the route reads off the object returned by `JSON.parse`
(`analysis.complications || []` makes the two list fields optional). -/
structure ParsedAnalysis where
  summary : String
  legalBasis : String
  citation : Citation
  complications : Option (List String)
  risks : Option (List String)
  confidenceLevel : String
  deriving Repr, DecidableEq

/-- The external capabilities the report route consumes. -/
structure ReportDeps where
  queryEmbed : String → Except String (List ℚ)
  sim : List ℚ → List ℚ → ℚ
  gen : RightType → String → Except String (Option String)
  parse : String → Option ParsedAnalysis
  web : RightType → List SimilarCase

/-- `caseData.extractedEntities.hostCountry || "Switzerland"` (the empty
string is falsy). -/
def hostCountryOr (e : ExtractedEntities) : String :=
  match e.hostCountry with
  | some s => if s = "" then "Switzerland" else s
  | none => "Switzerland"

/-- The `rightsCategories` array the route builds: `health` iff
`medicalNeeds` is present and nonempty, `education` iff `educationNeeds` is
present and nonempty, `family_life` iff `familySize` is present, truthy and
greater than 1, and `housing` unconditionally (default for all cases). -/
def rightsCategories (e : ExtractedEntities) : List (RightType × String) :=
  (match e.medicalNeeds with
   | some l =>
     if l.length > 0 then
       [(RightType.health, "medical rights healthcare access treatment for " ++
         String.intercalate " " l ++ " in " ++ hostCountryOr e)]
     else []
   | none => []) ++
  (match e.educationNeeds with
   | some l =>
     if l.length > 0 then
       [(RightType.education,
         "education rights school access language classes for refugees in " ++ hostCountryOr e)]
     else []
   | none => []) ++
  (match e.familySize with
   | some n =>
     if n > 1 then
       [(RightType.family_life,
         "family reunification rights asylum family members in " ++ hostCountryOr e)]
     else []
   | none => []) ++
  [(RightType.housing,
    "housing accommodation rights refugees asylum seekers in " ++ hostCountryOr e)]

/-- The document context the route assembles from the search results, with
its no-documents fallback string. -/
def formatDocContext (results : List SearchResult) : String :=
  if results.length > 0 then
    String.intercalate "\n\n" (results.enum.map (fun p =>
      "[Document " ++ decimalRepr (p.1 + 1) ++ ": " ++ p.2.filename ++ ", Page " ++
        decimalRepr p.2.pageNumber ++ "]\n" ++ p.2.text.asString))
  else
    "No specific legal documents available. Please provide analysis based on general legal knowledge of refugee rights."

/-- The retrieval step of one category pipeline: when documents are loaded,
embed the category query and rank against the corpus (top 5, floor 0.65);
without documents the route skips retrieval. -/
def categorySearchResults (deps : ReportDeps) (embeddings : List EmbeddingData)
    (query : String) : Except String (List SearchResult) :=
  if embeddings.length > 0 then
    (deps.queryEmbed query).map
      (fun qe => searchSimilarDocuments deps.sim qe embeddings 5 (13 / 20 : ℚ))
  else Except.ok []

/-- One category pipeline of the route: retrieve, assemble context, request
the structured generation, parse it, merge in the web precedent lookup.
Returns `ok none` (dropped category) when the completion has no content;
propagates an error — rejecting the whole `Promise.all` — when the
completion call fails or its content fails to `JSON.parse`. -/
def analyzeCategory (deps : ReportDeps) (embeddings : List EmbeddingData)
    (tq : RightType × String) : Except String (Option RightsAnalysis) :=
  match categorySearchResults deps embeddings tq.2 with
  | .error e => .error e
  | .ok searchResults =>
    match deps.gen tq.1 (formatDocContext searchResults) with
    | .error e => .error e
    | .ok none => .ok none
    | .ok (some content) =>
      if content = "" then .ok none
      else
        match deps.parse content with
        | none => .error "SyntaxError: Unexpected token in JSON"
        | some analysis =>
          .ok (some
            { rightType := tq.1
              summary := analysis.summary
              legalBasis := analysis.legalBasis
              citation := analysis.citation
              complications := analysis.complications.getD []
              risks := analysis.risks.getD []
              similarCases := deps.web tq.1
              confidenceLevel := analysis.confidenceLevel })

/-- The disclaimer constant of the route. -/
def reportDisclaimer : String :=
  "This report is generated by AI analysis of legal documents and should be reviewed by a qualified legal professional. It does not constitute legal advice."

/-- `POST /api/report/generate`: reject a missing case id, reject an unknown
case, fan out one pipeline per applicable category (`Promise.all`), filter
out the `null` results, persist the report and mark the case completed.
`newReportId` is the `randomUUID` the store draws and `now` the
timestamp. -/
def generateReport (deps : ReportDeps) (embeddings : List EmbeddingData)
    (storage : StorageState) (newReportId : String) (now : String)
    (caseId : String) : Except String (Report × StorageState) :=
  if caseId = "" then Except.error "Case ID is required"
  else
    match getCase storage caseId with
    | none => Except.error "Case not found"
    | some caseData =>
      match (rightsCategories caseData.extractedEntities).mapM
          (analyzeCategory deps embeddings) with
      | .error e => .error e
      | .ok results =>
        let validAnalysis := results.filterMap id
        let reportAndStore := createReport storage
          { id := newReportId
            caseId := caseData.id
            caseNumber := caseData.caseNumber
            generatedAt := now
            rightsAnalysis := validAnalysis
            disclaimer := reportDisclaimer }
        let storage2 := (updateCase reportAndStore.2 caseData.id
          { emptyPatch with status := some CaseStatus.completed } now).2
        .ok (reportAndStore.1, storage2)

theorem housing_mem_rightsCategories (e : ExtractedEntities) :
    RightType.housing ∈ (rightsCategories e).map Prod.fst := by
  unfold rightsCategories
  simp [List.map_append]

theorem health_mem_rightsCategories (e : ExtractedEntities) :
    RightType.health ∈ (rightsCategories e).map Prod.fst ↔
      ∃ l, e.medicalNeeds = some l ∧ l ≠ [] := by
  rcases e with ⟨hc, mn, en, ag, fs, cp, ul⟩
  unfold rightsCategories
  cases mn <;> cases en <;> cases fs <;>
    simp only [List.map_append, List.mem_append] <;>
    (try split_ifs) <;>
    simp_all [List.length_pos]

theorem mapM_ok_of_pointwise (f : RightType × String → Except String (Option RightsAnalysis)) :
    ∀ (cats : List (RightType × String)) (r : RightType × String → Option RightsAnalysis),
      (∀ tq ∈ cats, f tq = Except.ok (r tq)) →
      cats.mapM f = Except.ok (cats.map r) := by
  intro cats
  induction cats with
  | nil => intro r _; rfl
  | cons tq rest ih =>
    intro r h
    rw [List.mapM_cons, h tq (by simp), ih r (fun x hx => h x (by simp [hx]))]
    rfl

theorem filterMap_rightTypes (failCat : RightType) :
    ∀ (cats : List (RightType × String)) (r : RightType × String → Option RightsAnalysis),
      (∀ tq ∈ cats, (tq.1 = failCat → r tq = none) ∧
        (tq.1 ≠ failCat → ∃ ra, r tq = some ra ∧ ra.rightType = tq.1)) →
      ((cats.map r).filterMap id).map (fun a => a.rightType) =
        (cats.map Prod.fst).filter (fun t => t ≠ failCat) := by
  intro cats
  induction cats with
  | nil => intro r _; rfl
  | cons tq rest ih =>
    intro r h
    have htq := h tq (by simp)
    have hrest := ih r (fun x hx => h x (by simp [hx]))
    by_cases hf : tq.1 = failCat
    · simp [htq.1 hf, hf]
      simpa using hrest
    · rcases htq.2 hf with ⟨ra, hra, hrt⟩
      simp [hra, hf, hrt]
      simpa using hrest

/-- Capabilities that fully succeed: the query embedding resolves, and the
generation returns nonempty content that parses. -/
def depsSucceed (deps : ReportDeps) : Prop :=
  (∀ q, ∃ v, deps.queryEmbed q = Except.ok v) ∧
  (∀ t ctx, ∃ s, deps.gen t ctx = Except.ok (some s) ∧ s ≠ "" ∧
    ∃ a, deps.parse s = some a)

theorem categorySearchResults_ok (deps : ReportDeps) (embeddings : List EmbeddingData)
    (query : String) (hq : ∀ q, ∃ v, deps.queryEmbed q = Except.ok v) :
    ∃ rs, categorySearchResults deps embeddings query = Except.ok rs := by
  unfold categorySearchResults
  by_cases hemb : embeddings.length > 0
  · rw [if_pos hemb]
    rcases hq query with ⟨v, hv⟩
    rw [hv]
    exact ⟨_, rfl⟩
  · rw [if_neg hemb]
    exact ⟨[], rfl⟩

theorem analyzeCategory_ok_of_succeed (deps : ReportDeps) (embeddings : List EmbeddingData)
    (tq : RightType × String) (hq : ∀ q, ∃ v, deps.queryEmbed q = Except.ok v)
    (hg : ∀ ctx, ∃ s, deps.gen tq.1 ctx = Except.ok (some s) ∧ s ≠ "" ∧
      ∃ a, deps.parse s = some a) :
    ∃ ra, analyzeCategory deps embeddings tq = Except.ok (some ra) ∧ ra.rightType = tq.1 := by
  unfold analyzeCategory
  rcases categorySearchResults_ok deps embeddings tq.2 hq with ⟨rs, hrs⟩
  rw [hrs]
  dsimp only
  rcases hg (formatDocContext rs) with ⟨s, hs, hne, a, ha⟩
  rw [hs]
  dsimp only
  rw [if_neg hne, ha]
  exact ⟨_, rfl, rfl⟩

theorem analyzeCategory_none_of_no_content (deps : ReportDeps)
    (embeddings : List EmbeddingData) (tq : RightType × String)
    (hq : ∀ q, ∃ v, deps.queryEmbed q = Except.ok v)
    (hfail : ∀ ctx, deps.gen tq.1 ctx = Except.ok none) :
    analyzeCategory deps embeddings tq = Except.ok none := by
  unfold analyzeCategory
  rcases categorySearchResults_ok deps embeddings tq.2 hq with ⟨rs, hrs⟩
  rw [hrs]
  dsimp only
  rw [hfail (formatDocContext rs)]

/-- The per-category outcome as an option (the value `Promise.all` hands
back for a pipeline that resolved). -/
def rOf (deps : ReportDeps) (embeddings : List EmbeddingData)
    (tq : RightType × String) : Option RightsAnalysis :=
  match analyzeCategory deps embeddings tq with
  | .ok v => v
  | .error _ => none

theorem generateReport_ok_shape (deps : ReportDeps) (embeddings : List EmbeddingData)
    (storage : StorageState) (newReportId now caseId : String) (caseData : Case)
    (hid : caseId ≠ "") (hcase : getCase storage caseId = some caseData)
    (hall : ∀ tq ∈ rightsCategories caseData.extractedEntities,
      analyzeCategory deps embeddings tq = Except.ok (rOf deps embeddings tq)) :
    ∃ storage2, generateReport deps embeddings storage newReportId now caseId =
      Except.ok
        ({ id := newReportId
           caseId := caseData.id
           caseNumber := caseData.caseNumber
           generatedAt := now
           rightsAnalysis := ((rightsCategories caseData.extractedEntities).map
             (rOf deps embeddings)).filterMap id
           disclaimer := reportDisclaimer }, storage2) := by
  unfold generateReport
  rw [if_neg hid, hcase]
  dsimp only
  rw [mapM_ok_of_pointwise _ _ (rOf deps embeddings) hall]
  exact ⟨_, rfl⟩

/-- C4: the attempted report categories are exactly the ones whose
applicability predicate holds — the baseline `housing` category is always
included, `health` is included iff `medicalNeeds` is present and non-empty —
and, with fully succeeding capabilities, a case with
`medicalNeeds = ["diabetes"]` and no other qualifying facts yields a report
whose analysed categories are exactly `[health, housing]` (so `education`
and `family_life` are absent), while a case satisfying zero predicates still
yields a report containing exactly the baseline `housing` category. -/
theorem report_categories_by_predicates :
    (∀ e : ExtractedEntities, RightType.housing ∈ (rightsCategories e).map Prod.fst) ∧
    (∀ e : ExtractedEntities,
      (RightType.health ∈ (rightsCategories e).map Prod.fst ↔
        ∃ l, e.medicalNeeds = some l ∧ l ≠ [])) ∧
    (∀ (deps : ReportDeps) (embeddings : List EmbeddingData) (storage : StorageState)
        (newReportId now caseId : String) (caseData : Case),
      depsSucceed deps → caseId ≠ "" → getCase storage caseId = some caseData →
      caseData.extractedEntities =
        { hostCountry := none, medicalNeeds := some ["diabetes"], educationNeeds := none,
          age := none, familySize := none, complications := none, urgencyLevel := none } →
      ∃ report storage2,
        generateReport deps embeddings storage newReportId now caseId =
          Except.ok (report, storage2) ∧
        report.rightsAnalysis.map (fun a => a.rightType) =
          [RightType.health, RightType.housing]) ∧
    (∀ (deps : ReportDeps) (embeddings : List EmbeddingData) (storage : StorageState)
        (newReportId now caseId : String) (caseData : Case),
      depsSucceed deps → caseId ≠ "" → getCase storage caseId = some caseData →
      caseData.extractedEntities =
        { hostCountry := none, medicalNeeds := none, educationNeeds := none,
          age := none, familySize := none, complications := none, urgencyLevel := none } →
      ∃ report storage2,
        generateReport deps embeddings storage newReportId now caseId =
          Except.ok (report, storage2) ∧
        report.rightsAnalysis.map (fun a => a.rightType) = [RightType.housing]) := by
  have main : ∀ (deps : ReportDeps) (embeddings : List EmbeddingData)
      (storage : StorageState) (newReportId now caseId : String) (caseData : Case),
      depsSucceed deps → caseId ≠ "" → getCase storage caseId = some caseData →
      ∃ report storage2,
        generateReport deps embeddings storage newReportId now caseId =
          Except.ok (report, storage2) ∧
        report.rightsAnalysis.map (fun a => a.rightType) =
          (((rightsCategories caseData.extractedEntities).map
            (rOf deps embeddings)).filterMap id).map (fun a => a.rightType) ∧
        ∀ tq ∈ rightsCategories caseData.extractedEntities,
          ∃ ra, rOf deps embeddings tq = some ra ∧ ra.rightType = tq.1 := by
    intro deps embeddings storage newReportId now caseId caseData hdeps hid hcase
    rcases hdeps with ⟨hq, hg⟩
    have hra : ∀ tq ∈ rightsCategories caseData.extractedEntities,
        ∃ ra, rOf deps embeddings tq = some ra ∧ ra.rightType = tq.1 := by
      intro tq htq
      rcases analyzeCategory_ok_of_succeed deps embeddings tq hq (hg tq.1) with ⟨ra, hac, hrt⟩
      exact ⟨ra, by simp [rOf, hac], hrt⟩
    have hall : ∀ tq ∈ rightsCategories caseData.extractedEntities,
        analyzeCategory deps embeddings tq = Except.ok (rOf deps embeddings tq) := by
      intro tq htq
      rcases analyzeCategory_ok_of_succeed deps embeddings tq hq (hg tq.1) with ⟨ra, hac, _⟩
      rw [hac]
      simp [rOf, hac]
    rcases generateReport_ok_shape deps embeddings storage newReportId now caseId caseData
      hid hcase hall with ⟨storage2, hrep⟩
    exact ⟨_, storage2, hrep, rfl, hra⟩
  refine ⟨housing_mem_rightsCategories, health_mem_rightsCategories, ?_, ?_⟩
  · intro deps embeddings storage newReportId now caseId caseData hdeps hid hcase hent
    rcases main deps embeddings storage newReportId now caseId caseData hdeps hid hcase with
      ⟨report, storage2, hrep, hmap, hra⟩
    refine ⟨report, storage2, hrep, ?_⟩
    rw [hmap]
    have hpred : ∀ tq ∈ rightsCategories caseData.extractedEntities,
        (tq.1 = RightType.work → rOf deps embeddings tq = none) ∧
        (tq.1 ≠ RightType.work →
          ∃ ra, rOf deps embeddings tq = some ra ∧ ra.rightType = tq.1) := by
      intro tq htq
      refine ⟨?_, fun _ => hra tq htq⟩
      intro hw
      exfalso
      have hm : tq.1 ∈ (rightsCategories caseData.extractedEntities).map Prod.fst :=
        List.mem_map_of_mem Prod.fst htq
      rw [hent, hw] at hm
      revert hm
      decide
    rw [filterMap_rightTypes RightType.work _ _ hpred, hent]
    decide
  · intro deps embeddings storage newReportId now caseId caseData hdeps hid hcase hent
    rcases main deps embeddings storage newReportId now caseId caseData hdeps hid hcase with
      ⟨report, storage2, hrep, hmap, hra⟩
    refine ⟨report, storage2, hrep, ?_⟩
    rw [hmap]
    have hpred : ∀ tq ∈ rightsCategories caseData.extractedEntities,
        (tq.1 = RightType.work → rOf deps embeddings tq = none) ∧
        (tq.1 ≠ RightType.work →
          ∃ ra, rOf deps embeddings tq = some ra ∧ ra.rightType = tq.1) := by
      intro tq htq
      refine ⟨?_, fun _ => hra tq htq⟩
      intro hw
      exfalso
      have hm : tq.1 ∈ (rightsCategories caseData.extractedEntities).map Prod.fst :=
        List.mem_map_of_mem Prod.fst htq
      rw [hent, hw] at hm
      revert hm
      decide
    rw [filterMap_rightTypes RightType.work _ _ hpred, hent]
    decide

/-- C1 (amended): a category whose generation call resolves with NO content
is dropped from the final report while every other successfully analysed
category is kept and the request does not abort; but — per the
counterexample below — content that is present and fails to `JSON.parse`
rejects the whole `Promise.all` and aborts the whole report generation. -/
theorem generateReport_drops_no_content_category (deps : ReportDeps)
    (embeddings : List EmbeddingData) (storage : StorageState)
    (newReportId now caseId : String) (caseData : Case) (failCat : RightType)
    (hid : caseId ≠ "") (hcase : getCase storage caseId = some caseData)
    (hq : ∀ q, ∃ v, deps.queryEmbed q = Except.ok v)
    (hfail : ∀ ctx, deps.gen failCat ctx = Except.ok none)
    (hok : ∀ tq ∈ rightsCategories caseData.extractedEntities, tq.1 ≠ failCat →
      ∀ ctx, ∃ s, deps.gen tq.1 ctx = Except.ok (some s) ∧ s ≠ "" ∧
        ∃ a, deps.parse s = some a) :
    ∃ report storage2,
      generateReport deps embeddings storage newReportId now caseId =
        Except.ok (report, storage2) ∧
      report.rightsAnalysis.map (fun a => a.rightType) =
        ((rightsCategories caseData.extractedEntities).map Prod.fst).filter
          (fun t => t ≠ failCat) := by
  have hall : ∀ tq ∈ rightsCategories caseData.extractedEntities,
      analyzeCategory deps embeddings tq = Except.ok (rOf deps embeddings tq) := by
    intro tq htq
    by_cases hf : tq.1 = failCat
    · have hnone := analyzeCategory_none_of_no_content deps embeddings tq hq
        (fun ctx => by rw [hf]; exact hfail ctx)
      rw [hnone]
      simp [rOf, hnone]
    · rcases analyzeCategory_ok_of_succeed deps embeddings tq hq (hok tq htq hf) with
        ⟨ra, hac, _⟩
      rw [hac]
      simp [rOf, hac]
  rcases generateReport_ok_shape deps embeddings storage newReportId now caseId caseData
    hid hcase hall with ⟨storage2, hrep⟩
  refine ⟨_, storage2, hrep, ?_⟩
  apply filterMap_rightTypes failCat (rightsCategories caseData.extractedEntities)
    (rOf deps embeddings)
  intro tq htq
  constructor
  · intro hf
    have hnone := analyzeCategory_none_of_no_content deps embeddings tq hq
      (fun ctx => by rw [hf]; exact hfail ctx)
    simp [rOf, hnone]
  · intro hf
    rcases analyzeCategory_ok_of_succeed deps embeddings tq hq (hok tq htq hf) with
      ⟨ra, hac, hrt⟩
    exact ⟨ra, by simp [rOf, hac], hrt⟩

/-- The entities of the diabetes scenario. -/
def diabetesEntities : ExtractedEntities :=
  { hostCountry := none, medicalNeeds := some ["diabetes"], educationNeeds := none,
    age := none, familySize := none, complications := none, urgencyLevel := none }

/-- A stored case with the diabetes entities. -/
def exampleCaseC1 : Case :=
  { id := "case1", caseNumber := "CN-1", notes := "notes", audioTranscription := none,
    extractedEntities := diabetesEntities, status := CaseStatus.draft,
    createdAt := "t0", updatedAt := "t0" }

/-- A store holding only that case. -/
def exampleStorageC1 : StorageState :=
  { cases := [("case1", exampleCaseC1)], reports := [] }

/-- A parsed analysis object. -/
def goodAnalysis : ParsedAnalysis :=
  { summary := "s", legalBasis := "b",
    citation := { quote := "q", source := "src", filename := none, pageNumber := none },
    complications := none, risks := none, confidenceLevel := "low" }

/-- Capabilities whose health generation resolves with no content and whose
other generations return the parsable string `"GOOD"`. -/
def exampleDepsDrop : ReportDeps :=
  { queryEmbed := fun _ => Except.ok []
    sim := fun _ _ => 0
    gen := fun t _ => if t = RightType.health then Except.ok none
      else Except.ok (some "GOOD")
    parse := fun s => if s = "GOOD" then some goodAnalysis else none
    web := fun _ => [] }

theorem generateReport_drops_no_content_category_witness :
    ∃ report storage2,
      generateReport exampleDepsDrop [] exampleStorageC1 "r1" "t1" "case1" =
        Except.ok (report, storage2) ∧
      report.rightsAnalysis.map (fun a => a.rightType) =
        ((rightsCategories exampleCaseC1.extractedEntities).map Prod.fst).filter
          (fun t => t ≠ RightType.health) :=
  generateReport_drops_no_content_category exampleDepsDrop [] exampleStorageC1
    "r1" "t1" "case1" exampleCaseC1 RightType.health (by decide) (by decide)
    (fun q => ⟨[], rfl⟩) (fun ctx => by simp [exampleDepsDrop])
    (fun tq htq hne ctx =>
      ⟨"GOOD", by simp [exampleDepsDrop, hne], by decide,
        goodAnalysis, by simp [exampleDepsDrop]⟩)

/-- Capabilities whose health generation returns content that fails to
parse, while the housing generation returns parsable content. -/
def exampleDepsParseFail : ReportDeps :=
  { queryEmbed := fun _ => Except.ok []
    sim := fun _ _ => 0
    gen := fun t _ => if t = RightType.health then Except.ok (some "BAD")
      else Except.ok (some "GOOD")
    parse := fun s => if s = "GOOD" then some goodAnalysis else none
    web := fun _ => [] }

/-- C1 (counterexample): with structured output present but unparsable for
exactly one category (health) and parsable for the other (housing), the
whole report generation aborts with the parse error — no report containing
the other categories is produced, contradicting the claim. -/
theorem generateReport_parse_failure_aborts :
    exampleDepsParseFail.gen RightType.health "" = Except.ok (some "BAD") ∧
    exampleDepsParseFail.parse "BAD" = none ∧
    exampleDepsParseFail.gen RightType.housing "" = Except.ok (some "GOOD") ∧
    exampleDepsParseFail.parse "GOOD" = some goodAnalysis ∧
    generateReport exampleDepsParseFail [] exampleStorageC1 "r1" "t1" "case1" =
      Except.error "SyntaxError: Unexpected token in JSON" :=
  ⟨rfl, rfl, rfl, rfl, rfl⟩

/-! Embedding of `GET /api/documents/:filename` from the server routes file.
POSIX paths are strings over the separator `/`; `path.normalize` (and
`path.join`, which normalizes its result) resolves `.` and `..` segments and
collapses duplicate separators.  Express decodes the route parameter, so a
requested filename can contain `/` and `..` segments.  The string splitting,
joining and prefix test are implemented by structural recursion over the
underlying character lists. -/

/-- Split a character list on the path separator (the semantics of
`s.split("/")`: empty segments are kept). -/
def splitOnSepGo : List Char → List Char → List (List Char)
  | [], acc => [acc.reverse]
  | c :: rest, acc =>
    if c = '/' then acc.reverse :: splitOnSepGo rest [] else splitOnSepGo rest (c :: acc)

/-- The segments of a path string. -/
def splitSegs (s : String) : List String :=
  (splitOnSepGo s.data []).map List.asString

/-- Resolve `.` and `..` segments of an absolute path (a `..` above the root
vanishes, as in `path.normalize`), dropping empty and `.` segments. -/
def normSegs (segs : List String) : List String :=
  segs.foldl (fun acc seg =>
    if seg = "" ∨ seg = "." then acc
    else if seg = ".." then acc.dropLast
    else acc ++ [seg]) []

/-- Join segments with the path separator. -/
def intercalateSep : List String → String
  | [] => ""
  | [p] => p
  | p :: rest => p ++ "/" ++ intercalateSep rest

/-- `path.normalize` for an absolute path. -/
def normalizeAbs (s : String) : String :=
  "/" ++ intercalateSep (normSegs (splitSegs s))

/-- `path.join(base, ...parts)` for an absolute base: concatenate with the
separator, then normalize (Node's `join` normalizes its result). -/
def joinAbs (base : String) (parts : List String) : String :=
  normalizeAbs (base ++ "/" ++ intercalateSep parts)

/-- JavaScript `String.prototype.startsWith`: a character-level prefix
test. -/
def strStartsWith (s pre : String) : Bool :=
  pre.data.isPrefixOf s.data

/-- The three outcomes of the document route. -/
inductive ServeOutcome
  | denied
  | notFound
  | served (path : String)
  deriving Repr, DecidableEq

/-- The `/api/documents/:filename` handler: build
`path.join(process.cwd(), "data", filename)`, normalize it, and reject with
403 unless the normalized path starts (as a string) with
`path.join(process.cwd(), "data")`; then 404 unless the file exists; else
serve the file at `filePath`. -/
def serveDocument (cwd : String) (fileExists : String → Bool)
    (filename : String) : ServeOutcome :=
  let filePath := joinAbs cwd ["data", filename]
  let normalizedPath := normalizeAbs filePath
  let dataDir := joinAbs cwd ["data"]
  if ¬ strStartsWith normalizedPath dataDir then ServeOutcome.denied
  else if ¬ fileExists filePath then ServeOutcome.notFound
  else ServeOutcome.served filePath

/-- A path lies under a root when the root's resolved segments are a prefix
of its resolved segments. -/
def underRoot (root p : String) : Prop :=
  normSegs (splitSegs root) <+: normSegs (splitSegs p)

/-- C8: the access check of the document route is a plain string
`startsWith` against the document root without a trailing separator, so a
request whose resolved path lies OUTSIDE the root but shares its name as a
string prefix is served, not rejected: with the process directory `/app`,
the filename `../datax/secret.pdf` resolves to `/app/datax/secret.pdf`,
which is outside the root `/app/data` yet passes the check and is served. -/
theorem serveDocument_escapes_root :
    serveDocument "/app" (fun p => p = "/app/datax/secret.pdf") "../datax/secret.pdf" =
      ServeOutcome.served "/app/datax/secret.pdf" ∧
    strStartsWith "/app/datax/secret.pdf" (joinAbs "/app" ["data"]) = true ∧
    ¬ underRoot (joinAbs "/app" ["data"]) "/app/datax/secret.pdf" := by
  refine ⟨by decide, by decide, ?_⟩
  intro h
  unfold underRoot at h
  have h1 : normSegs (splitSegs (joinAbs "/app" ["data"])) = ["app", "data"] := by decide
  have h2 : normSegs (splitSegs "/app/datax/secret.pdf") =
      ["app", "datax", "secret.pdf"] := by decide
  rw [h1, h2] at h
  rcases h with ⟨t, ht⟩
  simp at ht
